import Mathlib

/-!
# Cover resolver (`go_backend/cover.go`)

A shallow embedding of the cover-URL resolution and download code of the Go backend,
together with the properties of the specification that concern it.

Modelling conventions.

* A Go `string` is modelled as a list of characters (`Str`).  The three size codes are
  ASCII, so searching for them byte-wise or character-wise finds the same positions, and
  a replacement of one by another gives the same string either way.
* The functions of the Go standard library used by the source (`strings.Index`,
  `strings.Contains`, `strings.Count`, `strings.Replace`, `http.NewRequest`, `io.ReadAll`)
  are modelled after their library source.
* The HTTP helpers of the package that live outside `cover.go`
  (`NewHTTPClientWithTimeout`, `DoRequestWithUserAgent`) are a parameter: a `Transport`.
* Network effects are made explicit: every effectful function returns, next to its Go
  result, the list of `Event`s it caused, in order.  Output written with `fmt.Printf`
  is diagnostic logging and is not part of the model.
-/

namespace Cover

/-- A Go string. -/
abbrev Str := List Char

/-! ## Standard library: package `strings` -/

/-- `strings.Index(s, substr)`: position of the first instance of `substr` in `s`;
`none` stands for Go's `-1`. -/
def stringsIndex : Str → Str → Option Nat
  | [], substr => if substr.isPrefixOf [] then some 0 else none
  | c :: cs, substr =>
    if substr.isPrefixOf (c :: cs) then some 0
    else (stringsIndex cs substr).map (· + 1)

/-- `strings.Contains(s, substr)`, which is `Index(s, substr) >= 0`. -/
def stringsContains (s substr : Str) : Bool :=
  (stringsIndex s substr).isSome

/-- The loop of `strings.Count` for a non-empty `substr`: find the next instance, count it,
continue behind it.  `fuel` bounds the number of iterations. -/
def countLoop (substr : Str) : Nat → Str → Nat → Nat
  | 0, _, n => n
  | fuel + 1, s, n =>
    match stringsIndex s substr with
    | none => n
    | some i => countLoop substr fuel (s.drop (i + substr.length)) (n + 1)

/-- `strings.Count(s, substr)`: number of non-overlapping instances of `substr` in `s`;
for an empty `substr` it is the number of characters of `s` plus one.  Every iteration of
the loop removes at least one character, so `s.length + 1` iterations are enough. -/
def stringsCount (s substr : Str) : Nat :=
  if substr = [] then s.length + 1
  else countLoop substr (s.length + 1) s 0

/-- The replacement loop of `strings.Replace`: `k` replacements are still to be made,
`first` tells whether this is iteration `i = 0`, `rest` is `s[start:]`, and `b` is the
builder.  An empty `old` matches at the start and after every character.  The loop is
only entered with `k` at most `Count(s, old)`, so `Index` finds an instance each time. -/
def replaceLoop (old new : Str) : Nat → Bool → Str → Str → Str
  | 0, _, rest, b => b ++ rest
  | k + 1, first, rest, b =>
    let j : Nat :=
      if old = [] then (if first then 0 else min 1 rest.length)
      else (stringsIndex rest old).getD 0
    replaceLoop old new k false (rest.drop (j + old.length)) (b ++ rest.take j ++ new)

/-- `strings.Replace(s, old, new, n)`: a copy of `s` with the first `n` non-overlapping
instances of `old` replaced by `new`; a negative `n` means no limit. -/
def stringsReplace (s old new : Str) (n : Int) : Str :=
  if old = new ∨ n = 0 then s
  else
    let m := stringsCount s old
    if m = 0 then s
    else
      let k : Nat := if n < 0 ∨ (m : Int) < n then m else n.toNat
      replaceLoop old new k true s []

/-! ## Size codes -/

/-- The code of the 300x300 (small) image. -/
def spotifySize300 : Str := "ab67616d00001e02".toList

/-- The code of the 640x640 (medium) image. -/
def spotifySize640 : Str := "ab67616d0000b273".toList

/-- The code of the maximum resolution image. -/
def spotifySizeMax : Str := "ab67616d000082c1".toList

/-- `convertSmallToMedium` upgrades a 300x300 cover URL to 640x640. -/
def convertSmallToMedium (imageURL : Str) : Str :=
  if stringsContains imageURL spotifySize300 then
    stringsReplace imageURL spotifySize300 spotifySize640 1
  else imageURL

/-! ## HTTP -/

/-- The two request methods the source uses. -/
inductive Method
  | GET
  | HEAD
  deriving DecidableEq, Repr

/-- An `*http.Request` as far as the source determines it: method and URL (the body is
`nil` in both calls). -/
structure Request where
  method : Method
  url : Str
  deriving DecidableEq, Repr

/-- The body of a response as `io.ReadAll` sees it: the bytes it delivers, and the error
that interrupts the stream, if any (`none` when the stream ends regularly). -/
structure Body where
  data : List Nat
  err : Option String

/-- An `*http.Response` as far as the source looks at it. -/
structure Response where
  StatusCode : Int
  body : Body

/-- The HTTP capability the source relies on and does not define.

* `requestError method url` is the error `http.NewRequest(method, url, nil)` reports for a
  URL it cannot parse, `none` when the request can be built;
* `DoRequestWithUserAgent req` is the answer of
  `DoRequestWithUserAgent(NewHTTPClientWithTimeout(DefaultTimeout), req)`: a response, or
  the transport error. -/
structure Transport where
  requestError : Method → Str → Option String
  DoRequestWithUserAgent : Request → Except String Response

/-- `http.NewRequest(method, url, nil)`. -/
def httpNewRequest (T : Transport) (method : Method) (url : Str) : Except String Request :=
  match T.requestError method url with
  | some e => .error e
  | none => .ok ⟨method, url⟩

/-- `io.ReadAll(r)`: the data read and the error, if any. -/
def ioReadAll (b : Body) : List Nat × Option String :=
  (b.data, b.err)

/-- What a call does to the outside world. -/
inductive Event
  /-- A request handed to `DoRequestWithUserAgent`. -/
  | send (req : Request)
  /-- The response body of the request read with `io.ReadAll`. -/
  | readBody (req : Request)
  /-- The response body of the request closed. -/
  | closeBody (req : Request)
  deriving DecidableEq, Repr

/-- The requests of a trace, in the order they were sent. -/
def sentRequests : List Event → List Request
  | [] => []
  | Event.send req :: es => req :: sentRequests es
  | _ :: es => sentRequests es

/-- `upgradeToMaxQuality` upgrades a cover URL to maximum quality: the 640x640 code is
replaced by the code of the maximum resolution and the new URL is checked with a `HEAD`
request. -/
def upgradeToMaxQuality (T : Transport) (coverURL : Str) : Str × List Event :=
  if stringsContains coverURL spotifySize640 then
    let maxURL := stringsReplace coverURL spotifySize640 spotifySizeMax 1
    match httpNewRequest T Method.HEAD maxURL with
    | .ok req =>
      match T.DoRequestWithUserAgent req with
      | .ok resp =>
        if resp.StatusCode = 200 then (maxURL, [Event.send req, Event.closeBody req])
        else (coverURL, [Event.send req, Event.closeBody req])
      | .error _ => (coverURL, [Event.send req])
    | .error _ => (coverURL, [])
  else (coverURL, [])

/-- `GetCoverFromSpotify` gets the cover URL from Spotify metadata. -/
def GetCoverFromSpotify (T : Transport) (imageURL : Str) (maxQuality : Bool) :
    Str × List Event :=
  if imageURL = [] then ([], [])
  else
    let result := convertSmallToMedium imageURL
    if maxQuality then upgradeToMaxQuality T result
    else (result, [])

/-- The two results of `downloadCoverToMemory`: the byte slice (`none` is `nil`) and the
error (`none` is `nil`), whose text is kept. -/
structure DownloadResult where
  data : Option (List Nat)
  err : Option String
  deriving DecidableEq, Repr

/-- `downloadCoverToMemory` downloads cover art and returns it as bytes. -/
def downloadCoverToMemory (T : Transport) (coverURL : Str) (maxQuality : Bool) :
    DownloadResult × List Event :=
  if coverURL = [] then (⟨none, some "no cover URL provided"⟩, [])
  else
    let downloadURL₀ := convertSmallToMedium coverURL
    let upgraded : Str × List Event :=
      if maxQuality then
        let r := upgradeToMaxQuality T downloadURL₀
        if r.1 ≠ downloadURL₀ then (r.1, r.2) else (downloadURL₀, r.2)
      else (downloadURL₀, [])
    let downloadURL := upgraded.1
    let tr := upgraded.2
    match httpNewRequest T Method.GET downloadURL with
    | .error e => (⟨none, some ("failed to create request: " ++ e)⟩, tr)
    | .ok req =>
      match T.DoRequestWithUserAgent req with
      | .error e => (⟨none, some ("failed to download cover: " ++ e)⟩, tr ++ [Event.send req])
      | .ok resp =>
        if resp.StatusCode ≠ 200 then
          (⟨none, some ("cover download failed: HTTP " ++ toString resp.StatusCode)⟩,
            tr ++ [Event.send req, Event.closeBody req])
        else
          match ioReadAll resp.body with
          | (_, some e) =>
            (⟨none, some ("failed to read cover data: " ++ e)⟩,
              tr ++ [Event.send req, Event.readBody req, Event.closeBody req])
          | (data, none) =>
            (⟨some data, none⟩,
              tr ++ [Event.send req, Event.readBody req, Event.closeBody req])

/-! ## Notions used to state the properties -/

/-- The status with which the header-only probe of `url` completes under `T`: `none` when
the request cannot be built or the transport reports an error. -/
def probeStatus (T : Transport) (url : Str) : Option Int :=
  match T.requestError Method.HEAD url with
  | some _ => none
  | none =>
    match T.DoRequestWithUserAgent ⟨Method.HEAD, url⟩ with
    | .ok resp => some resp.StatusCode
    | .error _ => none

/-- A transport that builds every request and answers every request with the given status
and body. -/
def constTransport (status : Int) (bytes : List Nat) : Transport where
  requestError := fun _ _ => none
  DoRequestWithUserAgent := fun _ => .ok ⟨status, ⟨bytes, none⟩⟩

/-- Whether an event is the reading of a response body. -/
def Event.isReadBody : Event → Bool
  | Event.readBody _ => true
  | _ => false

/-! ## Occurrences of a pattern -/

/-- The positions at which `pat` occurs in `s`, in increasing order. -/
def occurrences (pat : Str) : Str → List Nat
  | [] => if pat.isPrefixOf [] then [0] else []
  | c :: cs =>
    (if pat.isPrefixOf (c :: cs) then [0] else []) ++ (occurrences pat cs).map (· + 1)

end Cover

namespace Cover

/-! ## Facts about the string functions -/

theorem mem_occurrences (pat : Str) (s : Str) (i : Nat) :
    i ∈ occurrences pat s ↔ i ≤ s.length ∧ pat <+: s.drop i := by
  induction s generalizing i with
  | nil =>
    by_cases h : pat.isPrefixOf [] = true
    · have hp : pat <+: [] := List.isPrefixOf_iff_prefix.mp h
      simp only [occurrences, h, if_true, List.mem_singleton, List.length_nil,
        Nat.le_zero_eq, List.drop_nil]
      exact ⟨fun hi => ⟨hi, hp⟩, fun hi => hi.1⟩
    · have hp : ¬ pat <+: [] := fun hp => h (List.isPrefixOf_iff_prefix.mpr hp)
      simp only [occurrences, h, List.drop_nil]
      simp [hp]
  | cons c cs ih =>
    cases i with
    | zero =>
      by_cases h : pat.isPrefixOf (c :: cs) = true
      · have hp : pat <+: c :: cs := List.isPrefixOf_iff_prefix.mp h
        simp [occurrences, h, hp]
      · have hp : ¬ pat <+: c :: cs := fun hp => h (List.isPrefixOf_iff_prefix.mpr hp)
        simp [occurrences, h, hp]
    | succ k =>
      have hk : k + 1 ∈ occurrences pat (c :: cs) ↔ k ∈ occurrences pat cs := by
        by_cases h : pat.isPrefixOf (c :: cs) = true <;> simp [occurrences, h]
      rw [hk, ih k]
      simp

theorem stringsIndex_eq_head? (s pat : Str) :
    stringsIndex s pat = (occurrences pat s).head? := by
  induction s with
  | nil => by_cases h : pat.isPrefixOf [] = true <;> simp [stringsIndex, occurrences, h]
  | cons c cs ih =>
    by_cases h : pat.isPrefixOf (c :: cs) = true
    · simp [stringsIndex, occurrences, h]
    · simp [stringsIndex, occurrences, h, ih]

theorem occurrences_sorted (pat s : Str) : (occurrences pat s).Pairwise (· < ·) := by
  induction s with
  | nil => by_cases h : pat.isPrefixOf [] = true <;> simp [occurrences, h]
  | cons c cs ih =>
    have hmap : ((occurrences pat cs).map (· + 1)).Pairwise (· < ·) := by
      rw [List.pairwise_map]
      exact ih.imp (fun h => Nat.succ_lt_succ h)
    by_cases h : pat.isPrefixOf (c :: cs) = true
    · simp only [occurrences, h, if_true, List.singleton_append, List.pairwise_cons]
      refine ⟨?_, hmap⟩
      intro a ha
      rw [List.mem_map] at ha
      obtain ⟨b, _, rfl⟩ := ha
      exact Nat.succ_pos b
    · simpa [occurrences, h] using hmap

/-- What `strings.Index` computes: the least position at which the pattern occurs. -/
theorem stringsIndex_eq_some_iff (s pat : Str) (i : Nat) :
    stringsIndex s pat = some i ↔
      (i ≤ s.length ∧ pat <+: s.drop i) ∧ ∀ j, j < i → ¬ pat <+: s.drop j := by
  rw [stringsIndex_eq_head?]
  have hs := occurrences_sorted pat s
  constructor
  · intro h
    cases hocc : occurrences pat s with
    | nil => simp [hocc] at h
    | cons a as =>
      rw [hocc] at h hs
      simp only [List.head?_cons, Option.some.injEq] at h
      subst h
      refine ⟨(mem_occurrences pat s a).mp (by simp [hocc]), ?_⟩
      intro j hj hp
      have hjmem : j ∈ occurrences pat s :=
        (mem_occurrences pat s j).mpr ⟨by
          have := ((mem_occurrences pat s a).mp (by simp [hocc])).1
          omega, hp⟩
      rw [hocc, List.mem_cons] at hjmem
      rcases hjmem with rfl | hmem
      · exact Nat.lt_irrefl _ hj
      · have := (List.pairwise_cons.mp hs).1 j hmem
        omega
  · rintro ⟨hi, hmin⟩
    have himem : i ∈ occurrences pat s := (mem_occurrences pat s i).mpr hi
    cases hocc : occurrences pat s with
    | nil => simp [hocc] at himem
    | cons a as =>
      rw [hocc] at himem hs
      have hamem : a ∈ occurrences pat s := by simp [hocc]
      have ha := (mem_occurrences pat s a).mp hamem
      simp only [List.head?_cons, Option.some.injEq]
      rcases List.mem_cons.mp himem with rfl | hmem
      · rfl
      · have hlt := (List.pairwise_cons.mp hs).1 i hmem
        exact absurd ha.2 (hmin a hlt)

theorem stringsContains_eq_false_iff (s pat : Str) :
    stringsContains s pat = false ↔ occurrences pat s = [] := by
  unfold stringsContains
  rw [stringsIndex_eq_head?]
  cases occurrences pat s <;> simp

theorem stringsContains_eq_true_iff (s pat : Str) :
    stringsContains s pat = true ↔ ∃ i, i ≤ s.length ∧ pat <+: s.drop i := by
  unfold stringsContains
  rw [stringsIndex_eq_head?]
  constructor
  · intro h
    cases hocc : occurrences pat s with
    | nil => simp [hocc] at h
    | cons a as => exact ⟨a, (mem_occurrences pat s a).mp (by simp [hocc])⟩
  · rintro ⟨i, hi⟩
    have himem := (mem_occurrences pat s i).mpr hi
    cases hocc : occurrences pat s with
    | nil => simp [hocc] at himem
    | cons a as => simp

theorem le_countLoop (pat : Str) (fuel : Nat) (s : Str) (n : Nat) :
    n ≤ countLoop pat fuel s n := by
  induction fuel generalizing s n with
  | zero => simp [countLoop]
  | succ f ih =>
    unfold countLoop
    cases stringsIndex s pat with
    | none => exact Nat.le_refl n
    | some i => exact Nat.le_trans (Nat.le_succ n) (ih _ _)

/-- The fuel of `strings.Count` is enough: with more than `s.length` iterations allowed,
the loop of `countLoop` ends because `Index` finds nothing more, and its result does not
depend on the fuel. -/
theorem countLoop_fuel (pat : Str) (hpat : pat ≠ []) (f f' : Nat) (s : Str) (n : Nat)
    (hf : s.length < f) (hf' : s.length < f') :
    countLoop pat f s n = countLoop pat f' s n := by
  induction f generalizing f' s n with
  | zero => exact absurd hf (Nat.not_lt_zero _)
  | succ f ih =>
    cases f' with
    | zero => exact absurd hf' (Nat.not_lt_zero _)
    | succ f' =>
      unfold countLoop
      cases hidx : stringsIndex s pat with
      | none => rfl
      | some i =>
        simp only []
        have hi := ((stringsIndex_eq_some_iff s pat i).mp hidx).1
        have hlen : i + pat.length ≤ s.length := by
          have := hi.2.length_le
          rw [List.length_drop] at this
          have hp : 0 < pat.length := List.length_pos.mpr hpat
          omega
        have hp : 0 < pat.length := List.length_pos.mpr hpat
        apply ih
        · rw [List.length_drop]; omega
        · rw [List.length_drop]; omega

/-- One replacement: with the first instance of `old` at position `i`,
`strings.Replace(s, old, new, 1)` is `s[:i] + new + s[i+len(old):]`. -/
theorem stringsReplace_one (s old new : Str) (i : Nat) (hold : old ≠ [])
    (hne : old ≠ new) (hidx : stringsIndex s old = some i) :
    stringsReplace s old new 1 = s.take i ++ new ++ s.drop (i + old.length) := by
  have hm : stringsCount s old ≠ 0 := by
    unfold stringsCount
    rw [if_neg hold]
    unfold countLoop
    rw [hidx]
    have := le_countLoop old s.length (s.drop (i + old.length)) (0 + 1)
    simp only [] at this ⊢
    omega
  unfold stringsReplace
  have h1 : ¬ (old = new ∨ (1 : Int) = 0) := by
    rintro (h | h)
    · exact hne h
    · exact absurd h (by decide)
  rw [if_neg h1]
  simp only [hm, if_false]
  have hk : (if (1 : Int) < 0 ∨ ((stringsCount s old : Nat) : Int) < 1
      then stringsCount s old else (1 : Int).toNat) = 1 := by
    have h2 : ¬ ((1 : Int) < 0 ∨ ((stringsCount s old : Nat) : Int) < 1) := by
      omega
    rw [if_neg h2]
    rfl
  rw [hk]
  simp [replaceLoop, hold, hidx]

/-- A decomposition `s = a ++ pat ++ b` is an occurrence of `pat` at position `a.length`. -/
theorem length_mem_occurrences (pat s a b : Str) (h : s = a ++ pat ++ b) :
    a.length ∈ occurrences pat s := by
  rw [mem_occurrences]
  subst h
  refine ⟨by simp, ?_⟩
  rw [List.append_assoc, List.drop_left]
  exact List.prefix_append _ _

/-- An occurrence of `pat` at position `i` is a decomposition of the string. -/
theorem eq_append_of_mem_occurrences (pat s : Str) (i : Nat) (h : i ∈ occurrences pat s) :
    s = s.take i ++ pat ++ s.drop (i + pat.length) := by
  obtain ⟨_, t, ht⟩ := (mem_occurrences pat s i).mp h
  have hdrop : s.drop (i + pat.length) = t := by
    rw [← List.drop_drop, ← ht, List.drop_left]
  rw [hdrop, List.append_assoc, ht, List.take_append_drop]

theorem stringsContains_iff_sub (s pat : Str) :
    stringsContains s pat = true ↔ pat <:+: s := by
  rw [stringsContains_eq_true_iff]
  constructor
  · rintro ⟨i, hi⟩
    have h := eq_append_of_mem_occurrences pat s i ((mem_occurrences pat s i).mpr hi)
    exact ⟨s.take i, s.drop (i + pat.length), h.symm⟩
  · rintro ⟨a, b, h⟩
    exact ⟨a.length, (mem_occurrences pat s a.length).mp
      (length_mem_occurrences pat s a b h.symm)⟩

/-- The occurrence list decides whether the final `pat` of `pre ++ pat` is the only one. -/
theorem only_final_of_occurrences (pat pre : Str)
    (h : occurrences pat (pre ++ pat) = [pre.length]) :
    ∀ a b : Str, pre ++ pat = a ++ pat ++ b → b = [] := by
  intro a b hab
  have hmem := length_mem_occurrences pat (pre ++ pat) a b hab
  rw [h, List.mem_singleton] at hmem
  have hlen := congrArg List.length hab
  simp only [List.length_append] at hlen
  exact List.length_eq_zero.mp (by omega)

/-- If `pat` occurs at most once in `pre ++ pat ++ post`, then in particular the final
`pat` of `pre ++ pat` is the only one in `pre ++ pat`. -/
theorem only_final_of_at_most_once (pat pre post : Str)
    (H : ∀ a b a' b' : Str, pre ++ pat ++ post = a ++ pat ++ b →
      pre ++ pat ++ post = a' ++ pat ++ b' → a = a') :
    ∀ a b : Str, pre ++ pat = a ++ pat ++ b → b = [] := by
  intro a b hab
  have h2 : pre ++ pat ++ post = a ++ pat ++ (b ++ post) := by
    rw [hab]
    simp
  have ha := H _ _ _ _ rfl h2
  subst ha
  rw [List.append_assoc] at hab
  have := List.append_cancel_left hab
  exact List.append_right_eq_self.mp this.symm

/-- The occurrence list decides whether `pat` occurs at most once. -/
theorem at_most_once_of_occurrences (pat s : Str) (h : (occurrences pat s).length ≤ 1) :
    ∀ a b a' b' : Str, s = a ++ pat ++ b → s = a' ++ pat ++ b' → a = a' := by
  intro a b a' b' h1 h2
  have m1 := length_mem_occurrences pat s a b h1
  have m2 := length_mem_occurrences pat s a' b' h2
  have hlen : a.length = a'.length := by
    cases hocc : occurrences pat s with
    | nil => rw [hocc] at m1; simp at m1
    | cons x xs =>
      rw [hocc] at h m1 m2
      have hxs : xs = [] := List.length_eq_zero.mp (by simpa using h)
      subst hxs
      rw [List.mem_singleton] at m1 m2
      omega
  have h3 : a ++ (pat ++ b) = a' ++ (pat ++ b') := by
    rw [← List.append_assoc, ← List.append_assoc, ← h1, ← h2]
  exact (List.append_inj h3 hlen).1

/-- The first instance of `pat` in `pre ++ pat ++ post` is the one shown, provided that
`pat` does not occur earlier in `pre ++ pat`. -/
theorem stringsIndex_append (pat pre post : Str)
    (h : ∀ a b : Str, pre ++ pat = a ++ pat ++ b → b = []) :
    stringsIndex (pre ++ pat ++ post) pat = some pre.length := by
  rw [stringsIndex_eq_some_iff]
  refine ⟨⟨by simp, ?_⟩, ?_⟩
  · rw [List.append_assoc, List.drop_left]
    exact List.prefix_append _ _
  · intro j hj hp
    have hdrop : List.drop j (pre ++ pat ++ post) = List.drop j (pre ++ pat) ++ post := by
      rw [List.drop_append_of_le_length]
      simp; omega
    rw [hdrop] at hp
    have hp2 : pat <+: List.drop j (pre ++ pat) := by
      refine List.prefix_of_prefix_length_le hp (List.prefix_append _ _) ?_
      simp; omega
    have hmem : j ∈ occurrences pat (pre ++ pat) :=
      (mem_occurrences pat _ j).mpr ⟨by simp; omega, hp2⟩
    have hdec := eq_append_of_mem_occurrences pat (pre ++ pat) j hmem
    have hnil := h _ _ hdec
    have hlen : j + pat.length ≥ (pre ++ pat).length := by
      have := congrArg List.length hnil
      simp only [List.length_drop, List.length_nil] at this
      omega
    simp only [List.length_append] at hlen
    omega

/-- Replacing the first instance of `old`: the general form of the two rewrites of the
source. -/
theorem stringsReplace_first (old new pre post : Str) (hold : old ≠ []) (hne : old ≠ new)
    (h : ∀ a b : Str, pre ++ old = a ++ old ++ b → b = []) :
    stringsReplace (pre ++ old ++ post) old new 1 = pre ++ new ++ post := by
  rw [stringsReplace_one _ old new pre.length hold hne (stringsIndex_append old pre post h)]
  rw [List.append_assoc pre old post, List.take_left, List.drop_append, List.drop_left]

theorem spotifySize300_ne_nil : spotifySize300 ≠ [] := by decide

theorem spotifySize640_ne_nil : spotifySize640 ≠ [] := by decide

theorem spotifySize300_ne_640 : spotifySize300 ≠ spotifySize640 := by decide

theorem spotifySize640_ne_Max : spotifySize640 ≠ spotifySizeMax := by decide

theorem convertSmallToMedium_append (pre post : Str)
    (h : ∀ a b : Str, pre ++ spotifySize300 = a ++ spotifySize300 ++ b → b = []) :
    convertSmallToMedium (pre ++ spotifySize300 ++ post)
      = pre ++ spotifySize640 ++ post := by
  have hc : stringsContains (pre ++ spotifySize300 ++ post) spotifySize300 = true := by
    rw [stringsContains_iff_sub]
    exact ⟨pre, post, rfl⟩
  unfold convertSmallToMedium
  rw [if_pos hc]
  exact stringsReplace_first _ _ pre post spotifySize300_ne_nil spotifySize300_ne_640 h

theorem convertSmallToMedium_of_absent (url : Str) (h : ¬ spotifySize300 <:+: url) :
    convertSmallToMedium url = url := by
  have hc : stringsContains url spotifySize300 = false := by
    rw [← Bool.not_eq_true, stringsContains_iff_sub]
    exact h
  simp [convertSmallToMedium, hc]

theorem upgradeToMaxQuality_of_absent (T : Transport) (url : Str)
    (h : ¬ spotifySize640 <:+: url) : upgradeToMaxQuality T url = (url, []) := by
  have hc : stringsContains url spotifySize640 = false := by
    rw [← Bool.not_eq_true, stringsContains_iff_sub]
    exact h
  simp [upgradeToMaxQuality, hc]

theorem convertSmallToMedium_nil : convertSmallToMedium [] = [] := by decide

/-- The URL and the probe events of `downloadCoverToMemory` are those of
`GetCoverFromSpotify`. -/
theorem upgrade_chain_eq (r : Str × List Event) (m : Str) :
    (if r.1 ≠ m then (r.1, r.2) else (m, r.2)) = r := by
  by_cases h : r.1 = m
  · simp [← h]
  · simp [h]

/-- The body of `downloadCoverToMemory` on a non-empty URL, with the upgrade chain
expressed through `GetCoverFromSpotify`. -/
theorem downloadCoverToMemory_eq (T : Transport) (url : Str) (q : Bool) (h : url ≠ []) :
    downloadCoverToMemory T url q =
      match httpNewRequest T Method.GET (GetCoverFromSpotify T url q).1 with
      | .error e =>
        (⟨none, some ("failed to create request: " ++ e)⟩, (GetCoverFromSpotify T url q).2)
      | .ok req =>
        match T.DoRequestWithUserAgent req with
        | .error e =>
          (⟨none, some ("failed to download cover: " ++ e)⟩,
            (GetCoverFromSpotify T url q).2 ++ [Event.send req])
        | .ok resp =>
          if resp.StatusCode ≠ 200 then
            (⟨none, some ("cover download failed: HTTP " ++ toString resp.StatusCode)⟩,
              (GetCoverFromSpotify T url q).2 ++ [Event.send req, Event.closeBody req])
          else
            match ioReadAll resp.body with
            | (_, some e) =>
              (⟨none, some ("failed to read cover data: " ++ e)⟩,
                (GetCoverFromSpotify T url q).2
                  ++ [Event.send req, Event.readBody req, Event.closeBody req])
            | (data, none) =>
              (⟨some data, none⟩,
                (GetCoverFromSpotify T url q).2
                  ++ [Event.send req, Event.readBody req, Event.closeBody req]) := by
  have hG : GetCoverFromSpotify T url q =
      (if q = true then
        (if (upgradeToMaxQuality T (convertSmallToMedium url)).1 ≠ convertSmallToMedium url
          then ((upgradeToMaxQuality T (convertSmallToMedium url)).1,
            (upgradeToMaxQuality T (convertSmallToMedium url)).2)
          else (convertSmallToMedium url,
            (upgradeToMaxQuality T (convertSmallToMedium url)).2))
      else (convertSmallToMedium url, [])) := by
    rw [upgrade_chain_eq]
    simp [GetCoverFromSpotify, h]
  rw [hG]
  unfold downloadCoverToMemory
  rw [if_neg h]

/-- The events of `upgradeToMaxQuality`: at most one request, a `HEAD`, and no body is
read. -/
theorem upgradeToMaxQuality_events (T : Transport) (url : Str) :
    (sentRequests (upgradeToMaxQuality T url).2).length ≤ 1 ∧
    (∀ r ∈ sentRequests (upgradeToMaxQuality T url).2, r.method = Method.HEAD) ∧
    (∀ e ∈ (upgradeToMaxQuality T url).2, e.isReadBody = false) := by
  unfold upgradeToMaxQuality httpNewRequest
  split
  · generalize stringsReplace url spotifySize640 spotifySizeMax 1 = c
    cases hre : T.requestError Method.HEAD c with
    | some e => simp [hre, sentRequests]
    | none =>
      simp only [hre]
      cases hdo : T.DoRequestWithUserAgent ⟨Method.HEAD, c⟩ with
      | error e => simp [hdo, sentRequests, Event.isReadBody]
      | ok resp =>
        by_cases hs : resp.StatusCode = 200 <;>
          simp [hdo, hs, sentRequests, Event.isReadBody]
  · simp [sentRequests]

/-- The events of `GetCoverFromSpotify`: at most one request, a `HEAD`, none at all
unless maximum quality is asked for and the medium URL has the medium code, and no body
is read. -/
theorem GetCoverFromSpotify_events (T : Transport) (url : Str) (q : Bool) :
    (sentRequests (GetCoverFromSpotify T url q).2).length ≤ 1 ∧
    (∀ r ∈ sentRequests (GetCoverFromSpotify T url q).2, r.method = Method.HEAD) ∧
    (∀ e ∈ (GetCoverFromSpotify T url q).2, e.isReadBody = false) ∧
    ((q = false ∨ ¬ spotifySize640 <:+: convertSmallToMedium url) →
      (GetCoverFromSpotify T url q).2 = []) := by
  unfold GetCoverFromSpotify
  by_cases hu : url = []
  · simp [hu, sentRequests]
  · rw [if_neg hu]
    cases q with
    | false => simp [sentRequests]
    | true =>
      simp only [if_true]
      obtain ⟨h1, h2, h3⟩ := upgradeToMaxQuality_events T (convertSmallToMedium url)
      refine ⟨h1, h2, h3, ?_⟩
      rintro (h | h)
      · exact absurd h (by decide)
      · rw [upgradeToMaxQuality_of_absent T _ h]

theorem sentRequests_append (a b : List Event) :
    sentRequests (a ++ b) = sentRequests a ++ sentRequests b := by
  induction a with
  | nil => rfl
  | cons e es ih => cases e <;> simp [sentRequests, ih]

/-- The URL `upgradeToMaxQuality` returns, in terms of the answer to its probe. -/
theorem upgradeToMaxQuality_fst (T : Transport) (url : Str) :
    (upgradeToMaxQuality T url).1 =
      if stringsContains url spotifySize640 = true ∧
          probeStatus T (stringsReplace url spotifySize640 spotifySizeMax 1) = some 200
      then stringsReplace url spotifySize640 spotifySizeMax 1 else url := by
  unfold upgradeToMaxQuality httpNewRequest probeStatus
  by_cases hc : stringsContains url spotifySize640 = true
  · rw [if_pos hc]
    generalize stringsReplace url spotifySize640 spotifySizeMax 1 = c
    cases hre : T.requestError Method.HEAD c with
    | some e => simp [hre]
    | none =>
      simp only [hre]
      cases hdo : T.DoRequestWithUserAgent ⟨Method.HEAD, c⟩ with
      | error e => simp [hdo]
      | ok resp => by_cases hs : resp.StatusCode = 200 <;> simp [hdo, hs, hc]
  · simp [hc]

theorem GetCoverFromSpotify_max_fst (T : Transport) (url : Str) :
    (GetCoverFromSpotify T url true).1 =
      if stringsContains (convertSmallToMedium url) spotifySize640 = true ∧
          probeStatus T
            (stringsReplace (convertSmallToMedium url) spotifySize640 spotifySizeMax 1)
            = some 200
      then stringsReplace (convertSmallToMedium url) spotifySize640 spotifySizeMax 1
      else convertSmallToMedium url := by
  by_cases hu : url = []
  · subst hu
    have h0 : stringsContains [] spotifySize640 = false := by decide
    simp [GetCoverFromSpotify, h0, convertSmallToMedium_nil]
  · rw [← upgradeToMaxQuality_fst]
    simp [GetCoverFromSpotify, hu]

/-! ### Occurrences after a replacement -/

theorem getElem?_mid (a m b : Str) (j : Nat) (h : j < m.length) :
    (a ++ m ++ b)[a.length + j]? = m[j]? := by
  rw [List.append_assoc, List.getElem?_append_right (Nat.le_add_right _ _),
    Nat.add_sub_cancel_left, List.getElem?_append_left h]

theorem getElem?_pre (a m b : Str) (x : Nat) (h : x < a.length) :
    (a ++ m ++ b)[x]? = a[x]? := by
  rw [List.append_assoc, List.getElem?_append_left h]

theorem getElem?_post (a m b : Str) (x : Nat) (h : a.length + m.length ≤ x) :
    (a ++ m ++ b)[x]? = b[x - (a.length + m.length)]? := by
  rw [List.getElem?_append_right (by simpa using h)]
  simp

theorem prefix_of_getElem? (pat t : Str) (h : ∀ j, j < pat.length → t[j]? = pat[j]?) :
    pat <+: t := by
  rw [List.prefix_iff_eq_take]
  apply List.ext_getElem?
  intro n
  by_cases hn : n < pat.length
  · rw [List.getElem?_take_of_lt hn, h n hn]
  · rw [List.getElem?_eq_none (Nat.le_of_not_lt hn),
      List.getElem?_take_eq_none (Nat.le_of_not_lt hn)]

/-- Replacing the only occurrence of `S` by a string `M` of the same length leaves no
occurrence of `S`, when `M` cannot overlap an occurrence of `S`: `S` agrees with no
suffix of `M` on their common part (`hC`), and the first character of `M` occurs in `S`
at its start only (`hD`). -/
theorem not_infix_replaced (S M : Str) (hpos : 0 < S.length) (hlen : S.length = M.length)
    (hC : ∀ d, d < M.length → ∃ j, j < M.length ∧ d + j < M.length ∧ M[d + j]? ≠ S[j]?)
    (hD : ∀ e, e < S.length → 0 < e → M[0]? ≠ S[e]?)
    (pre post : Str)
    (H : ∀ a b a' b' : Str, pre ++ S ++ post = a ++ S ++ b →
      pre ++ S ++ post = a' ++ S ++ b' → a = a') :
    ¬ S <:+: pre ++ M ++ post := by
  rintro ⟨a, b, hab⟩
  have hpt : ∀ j, j < S.length → (pre ++ M ++ post)[a.length + j]? = S[j]? := by
    intro j hj
    rw [← hab]
    exact getElem?_mid a S b j hj
  -- an occurrence at `a.length` in the original string is the occurrence at `pre.length`
  have hocc : S <+: List.drop a.length (pre ++ S ++ post) → a.length = pre.length := by
    intro hp
    have hk : a.length ≤ (pre ++ S ++ post).length := by
      have := congrArg List.length hab
      simp only [List.length_append] at this ⊢
      omega
    have hmem := (mem_occurrences S _ a.length).mpr ⟨hk, hp⟩
    have hdec := eq_append_of_mem_occurrences S _ a.length hmem
    have := H _ _ _ _ rfl hdec
    have hl := congrArg List.length this
    rw [List.length_take] at hl
    omega
  by_cases hA : a.length + S.length ≤ pre.length
  · have : a.length = pre.length := by
      apply hocc
      apply prefix_of_getElem?
      intro j hj
      rw [List.getElem?_drop, getElem?_pre pre S post _ (by omega), ← hpt j hj,
        getElem?_pre pre M post _ (by omega)]
    omega
  by_cases hB : pre.length + M.length ≤ a.length
  · have : a.length = pre.length := by
      apply hocc
      apply prefix_of_getElem?
      intro j hj
      rw [List.getElem?_drop, getElem?_post pre S post _ (by omega), ← hpt j hj,
        getElem?_post pre M post _ (by omega), hlen]
    omega
  by_cases hCase : pre.length ≤ a.length
  · obtain ⟨j, hj, hdj, hne⟩ := hC (a.length - pre.length) (by omega)
    apply hne
    rw [← hpt j (by omega), ← getElem?_mid pre M post _ hdj]
    congr 1
    omega
  · apply hD (pre.length - a.length) (by omega) (by omega)
    rw [← hpt _ (by omega), ← getElem?_mid pre M post 0 (by omega)]
    congr 1
    omega

/-- The medium code cannot overlap an occurrence of the small code. -/
theorem spotifySize640_overlap :
    (∀ d, d < spotifySize640.length → ∃ j, j < spotifySize640.length ∧
      d + j < spotifySize640.length ∧ spotifySize640[d + j]? ≠ spotifySize300[j]?) ∧
    (∀ e, e < spotifySize300.length → 0 < e → spotifySize640[0]? ≠ spotifySize300[e]?) := by
  decide

/-- A URL in which the small code occurs at most once is free of it after
`convertSmallToMedium`. -/
theorem convertSmallToMedium_not_infix (url : Str)
    (H : ∀ a b a' b' : Str, url = a ++ spotifySize300 ++ b →
      url = a' ++ spotifySize300 ++ b' → a = a') :
    ¬ spotifySize300 <:+: convertSmallToMedium url := by
  by_cases hin : spotifySize300 <:+: url
  · obtain ⟨pre, post, hdec⟩ := hin
    subst hdec
    have hfirst := only_final_of_at_most_once spotifySize300 pre post H
    rw [convertSmallToMedium_append pre post hfirst]
    exact not_infix_replaced spotifySize300 spotifySize640 (by decide) rfl
      spotifySize640_overlap.1
      spotifySize640_overlap.2 pre post H
  · rw [convertSmallToMedium_of_absent url hin]
    exact hin

/-! ## The claims -/

/-- C1: for all `pre` and `post` such that the only occurrence of the small code in
`pre ++ SMALL` is its final 16 characters, `convertSmallToMedium (pre ++ SMALL ++ post)`
is `pre ++ MEDIUM ++ post`: the first occurrence is replaced, and everything else,
later occurrences in `post` included, stays as it is.  A URL in which the small code
occurs exactly once is of this form (`only_final_of_at_most_once`), so there exactly
that occurrence is replaced. -/
theorem convertSmallToMedium_replaces_first (pre post : Str)
    (h : ∀ a b : Str, pre ++ spotifySize300 = a ++ spotifySize300 ++ b → b = []) :
    convertSmallToMedium (pre ++ spotifySize300 ++ post)
      = pre ++ spotifySize640 ++ post :=
  convertSmallToMedium_append pre post h

/-- C1 at `https://i.scdn.co/image/` + SMALL + `abc` + SMALL: the first code is replaced,
the second one is not. -/
theorem convertSmallToMedium_replaces_first_witness :
    (∀ a b : Str, "https://i.scdn.co/image/".toList ++ spotifySize300
        = a ++ spotifySize300 ++ b → b = []) ∧
    convertSmallToMedium ("https://i.scdn.co/image/".toList ++ spotifySize300
        ++ ("abc".toList ++ spotifySize300))
      = "https://i.scdn.co/image/".toList ++ spotifySize640
        ++ ("abc".toList ++ spotifySize300) :=
  ⟨only_final_of_occurrences _ _ (by decide),
   convertSmallToMedium_replaces_first _ _ (only_final_of_occurrences _ _ (by decide))⟩

/-- C2: on a URL that does not contain the small code, the empty URL included,
`convertSmallToMedium` is the identity. -/
theorem convertSmallToMedium_identity (url : Str) (h : ¬ spotifySize300 <:+: url) :
    convertSmallToMedium url = url :=
  convertSmallToMedium_of_absent url h

/-- C2 at a URL with the medium code, and at the empty URL. -/
theorem convertSmallToMedium_identity_witness :
    (¬ spotifySize300 <:+: "https://i.scdn.co/image/ab67616d0000b273abc".toList ∧
      convertSmallToMedium "https://i.scdn.co/image/ab67616d0000b273abc".toList
        = "https://i.scdn.co/image/ab67616d0000b273abc".toList) ∧
    (¬ spotifySize300 <:+: ([] : Str) ∧ convertSmallToMedium [] = []) :=
  ⟨⟨by decide, convertSmallToMedium_identity _ (by decide)⟩,
   ⟨by decide, convertSmallToMedium_identity _ (by decide)⟩⟩

/-- C3: without the request for maximum quality `GetCoverFromSpotify` returns
`convertSmallToMedium url` for every URL, the empty one included, whatever the transport
is, and causes no event: no probe is sent.  The scenario of the specification: the URL
with the small code resolves to the URL with the medium code. -/
theorem GetCoverFromSpotify_false (T : Transport) (url : Str) :
    GetCoverFromSpotify T url false = (convertSmallToMedium url, []) ∧
    GetCoverFromSpotify T "https://i.scdn.co/image/ab67616d00001e02abc".toList false
      = ("https://i.scdn.co/image/ab67616d0000b273abc".toList, []) := by
  have hgen : ∀ u : Str, GetCoverFromSpotify T u false = (convertSmallToMedium u, []) := by
    intro u
    by_cases hu : u = []
    · subst hu
      have : convertSmallToMedium [] = [] := by decide
      simp [GetCoverFromSpotify, this]
    · simp [GetCoverFromSpotify, hu]
  refine ⟨hgen url, ?_⟩
  rw [hgen]
  have : convertSmallToMedium "https://i.scdn.co/image/ab67616d00001e02abc".toList
      = "https://i.scdn.co/image/ab67616d0000b273abc".toList := by decide
  rw [this]

/-- C4: with `m = convertSmallToMedium url` and `c` the URL `m` with its first medium
code replaced by the code of the maximum resolution, `GetCoverFromSpotify url true`
returns `c` if `m` contains the medium code and the `HEAD` probe of `c` completes with
status 200, and `m` in every other case (another status, a transport error, a request
that cannot be built, no medium code in `m`); its only result is a URL, so no error is
reported.  For the URL `.../ab67616d00001e02abc` a probe answered with 200 yields
`.../ab67616d000082c1abc` and a probe answered with 404 yields `.../ab67616d0000b273abc`. -/
theorem GetCoverFromSpotify_true (T : Transport) (url : Str) :
    (GetCoverFromSpotify T url true).1 =
      (if spotifySize640 <:+: convertSmallToMedium url ∧
          probeStatus T
            (stringsReplace (convertSmallToMedium url) spotifySize640 spotifySizeMax 1)
            = some 200
      then stringsReplace (convertSmallToMedium url) spotifySize640 spotifySizeMax 1
      else convertSmallToMedium url) ∧
    (∀ pre post : Str, convertSmallToMedium url = pre ++ spotifySize640 ++ post →
      (∀ a b : Str, pre ++ spotifySize640 = a ++ spotifySize640 ++ b → b = []) →
      stringsReplace (convertSmallToMedium url) spotifySize640 spotifySizeMax 1
        = pre ++ spotifySizeMax ++ post) ∧
    (probeStatus T "https://i.scdn.co/image/ab67616d000082c1abc".toList = some 200 →
      (GetCoverFromSpotify T "https://i.scdn.co/image/ab67616d00001e02abc".toList true).1
        = "https://i.scdn.co/image/ab67616d000082c1abc".toList) ∧
    (probeStatus T "https://i.scdn.co/image/ab67616d000082c1abc".toList = some 404 →
      (GetCoverFromSpotify T "https://i.scdn.co/image/ab67616d00001e02abc".toList true).1
        = "https://i.scdn.co/image/ab67616d0000b273abc".toList) := by
  have hm : convertSmallToMedium "https://i.scdn.co/image/ab67616d00001e02abc".toList
      = "https://i.scdn.co/image/ab67616d0000b273abc".toList := by decide
  have hc : stringsContains "https://i.scdn.co/image/ab67616d0000b273abc".toList
      spotifySize640 = true := by decide
  have hr : stringsReplace "https://i.scdn.co/image/ab67616d0000b273abc".toList
      spotifySize640 spotifySizeMax 1
      = "https://i.scdn.co/image/ab67616d000082c1abc".toList := by decide
  refine ⟨?_, ?_, ?_, ?_⟩
  · rw [GetCoverFromSpotify_max_fst]
    simp only [stringsContains_iff_sub]
  · intro pre post hdec hfirst
    rw [hdec]
    exact stringsReplace_first _ _ pre post spotifySize640_ne_nil spotifySize640_ne_Max
      hfirst
  · intro hp
    rw [GetCoverFromSpotify_max_fst, hm, hr, hp, if_pos ⟨hc, rfl⟩]
  · intro hp
    rw [GetCoverFromSpotify_max_fst, hm, hr, hp, if_neg (fun h => absurd h.2 (by decide))]

/-- C4 on transports that answer every request with 200, respectively 404. -/
theorem GetCoverFromSpotify_true_witness :
    (GetCoverFromSpotify (constTransport 200 [])
        "https://i.scdn.co/image/ab67616d00001e02abc".toList true).1
      = "https://i.scdn.co/image/ab67616d000082c1abc".toList ∧
    (GetCoverFromSpotify (constTransport 404 [])
        "https://i.scdn.co/image/ab67616d00001e02abc".toList true).1
      = "https://i.scdn.co/image/ab67616d0000b273abc".toList :=
  ⟨(GetCoverFromSpotify_true (constTransport 200 []) []).2.2.1 rfl,
   (GetCoverFromSpotify_true (constTransport 404 []) []).2.2.2 rfl⟩

/-- C5: for a non-empty URL, either quality flag and any probe outcome, if the request
for the resolved URL can be built and the transport answers the `GET` with status 200
and a body that reads completely as `B`, then `downloadCoverToMemory` returns exactly
the bytes `B` and no error. -/
theorem downloadCoverToMemory_success (T : Transport) (url : Str) (maxQuality : Bool)
    (resp : Response) (B : List Nat) (hne : url ≠ [])
    (hreq : T.requestError Method.GET (GetCoverFromSpotify T url maxQuality).1 = none)
    (hdo : T.DoRequestWithUserAgent ⟨Method.GET, (GetCoverFromSpotify T url maxQuality).1⟩
      = .ok resp)
    (hstatus : resp.StatusCode = 200) (hbody : resp.body = ⟨B, none⟩) :
    (downloadCoverToMemory T url maxQuality).1 = ⟨some B, none⟩ := by
  rw [downloadCoverToMemory_eq T url maxQuality hne]
  simp [httpNewRequest, hreq, hdo, hstatus, hbody, ioReadAll]

/-- C5 on a transport that answers 200 with the bytes 1, 2, 3, at maximum quality. -/
theorem downloadCoverToMemory_success_witness :
    (downloadCoverToMemory (constTransport 200 [1, 2, 3])
      "https://i.scdn.co/image/ab67616d00001e02abc".toList true).1
      = ⟨some [1, 2, 3], none⟩ :=
  downloadCoverToMemory_success (constTransport 200 [1, 2, 3])
    "https://i.scdn.co/image/ab67616d00001e02abc".toList true ⟨200, ⟨[1, 2, 3], none⟩⟩
    [1, 2, 3] (by decide) rfl rfl rfl rfl

/-- C6: for a non-empty URL and either quality flag, if the transport answers the `GET`
with a status other than 200, then `downloadCoverToMemory` returns no bytes (`nil`) and
the error whose text is `cover download failed: HTTP ` followed by the decimal value of
the status, which is the text `download failed: HTTP {status}` of the specification
after the word `cover`; and it never reads a response body. -/
theorem downloadCoverToMemory_bad_status (T : Transport) (url : Str) (maxQuality : Bool)
    (resp : Response) (hne : url ≠ [])
    (hreq : T.requestError Method.GET (GetCoverFromSpotify T url maxQuality).1 = none)
    (hdo : T.DoRequestWithUserAgent ⟨Method.GET, (GetCoverFromSpotify T url maxQuality).1⟩
      = .ok resp)
    (hstatus : resp.StatusCode ≠ 200) :
    (downloadCoverToMemory T url maxQuality).1.data = none ∧
    (downloadCoverToMemory T url maxQuality).1.err
      = some ("cover " ++ ("download failed: HTTP " ++ toString resp.StatusCode)) ∧
    (∀ e ∈ (downloadCoverToMemory T url maxQuality).2, e.isReadBody = false) := by
  rw [downloadCoverToMemory_eq T url maxQuality hne]
  obtain ⟨_, _, hread, _⟩ := GetCoverFromSpotify_events T url maxQuality
  simp only [httpNewRequest, hreq, hdo, hstatus, ne_eq, not_false_eq_true, if_true]
  refine ⟨trivial, ?_, ?_⟩
  · rw [← String.append_assoc]
    rfl
  · intro e he
    rcases List.mem_append.mp he with h | h
    · exact hread e h
    · simp only [List.mem_cons, List.mem_singleton, List.not_mem_nil, or_false] at h
      rcases h with rfl | rfl <;> rfl

/-- C6 on transports that answer 404, 204 and 206. -/
theorem downloadCoverToMemory_bad_status_witness :
    (downloadCoverToMemory (constTransport 404 [7])
        "https://i.scdn.co/image/ab67616d00001e02abc".toList true).1
      = ⟨none, some "cover download failed: HTTP 404"⟩ ∧
    (downloadCoverToMemory (constTransport 204 [7])
        "https://i.scdn.co/image/ab67616d00001e02abc".toList false).1
      = ⟨none, some "cover download failed: HTTP 204"⟩ ∧
    (downloadCoverToMemory (constTransport 206 [7])
        "https://i.scdn.co/image/ab67616d00001e02abc".toList false).1.err
      = some "cover download failed: HTTP 206" ∧
    (∀ e ∈ (downloadCoverToMemory (constTransport 404 [7])
        "https://i.scdn.co/image/ab67616d00001e02abc".toList true).2,
      e.isReadBody = false) :=
  ⟨by decide, by decide,
   (downloadCoverToMemory_bad_status (constTransport 206 [7])
      "https://i.scdn.co/image/ab67616d00001e02abc".toList false ⟨206, ⟨[7], none⟩⟩
      (by decide) rfl rfl (by decide)).2.1,
   (downloadCoverToMemory_bad_status (constTransport 404 [7])
      "https://i.scdn.co/image/ab67616d00001e02abc".toList true ⟨404, ⟨[7], none⟩⟩
      (by decide) rfl rfl (by decide)).2.2⟩

/-- C7, as amended: for both quality flags and every transport, `downloadCoverToMemory`
on the empty URL returns no bytes and the error whose text is `no cover URL provided`,
and causes no event: neither the `HEAD` probe nor the `GET` is sent. -/
theorem downloadCoverToMemory_empty (T : Transport) (maxQuality : Bool) :
    downloadCoverToMemory T [] maxQuality
      = (⟨none, some "no cover URL provided"⟩, []) := by
  simp [downloadCoverToMemory]

/-- C7 as stated fails on the text of the error: on the empty URL, with either quality
flag, the error `downloadCoverToMemory` returns is `no cover URL provided`, which is not
the text `no URL provided` and does not contain it. -/
theorem downloadCoverToMemory_empty_text :
    (downloadCoverToMemory (constTransport 200 []) [] true).1.err
      = some "no cover URL provided" ∧
    (downloadCoverToMemory (constTransport 200 []) [] false).1.err
      = some "no cover URL provided" ∧
    (downloadCoverToMemory (constTransport 200 []) [] true).1.err
      ≠ some "no URL provided" ∧
    (downloadCoverToMemory (constTransport 200 []) [] false).1.err
      ≠ some "no URL provided" ∧
    ¬ "no URL provided".toList <:+: "no cover URL provided".toList := by
  decide

/-- C8: on a non-empty URL, with either quality flag, the requests `downloadCoverToMemory`
sends are the probes followed by the downloads, where the probes are at most one request,
a `HEAD`, the very one `GetCoverFromSpotify` sends for the same URL and flag, and none at
all when maximum quality is not asked for or the medium URL lacks the medium code; and
the downloads are at most one request, the `GET` of the URL that `GetCoverFromSpotify`
returns for the same URL and flag under the same transport. -/
theorem downloadCoverToMemory_requests (T : Transport) (url : Str) (maxQuality : Bool)
    (hne : url ≠ []) :
    ∃ probes gets : List Request,
      sentRequests (downloadCoverToMemory T url maxQuality).2 = probes ++ gets ∧
      probes.length ≤ 1 ∧
      (∀ r ∈ probes, r.method = Method.HEAD) ∧
      probes = sentRequests (GetCoverFromSpotify T url maxQuality).2 ∧
      ((maxQuality = false ∨ ¬ spotifySize640 <:+: convertSmallToMedium url) →
        probes = []) ∧
      gets.length ≤ 1 ∧
      (∀ r ∈ gets, r = ⟨Method.GET, (GetCoverFromSpotify T url maxQuality).1⟩) := by
  obtain ⟨h1, h2, _, h4⟩ := GetCoverFromSpotify_events T url maxQuality
  have hnil : (maxQuality = false ∨ ¬ spotifySize640 <:+: convertSmallToMedium url) →
      sentRequests (GetCoverFromSpotify T url maxQuality).2 = [] := by
    intro h
    rw [h4 h]
    rfl
  rw [downloadCoverToMemory_eq T url maxQuality hne]
  unfold httpNewRequest
  cases hre : T.requestError Method.GET (GetCoverFromSpotify T url maxQuality).1 with
  | some e =>
    exact ⟨_, [], by simp, h1, h2, rfl, hnil, by simp, by simp⟩
  | none =>
    simp only []
    cases hdo : T.DoRequestWithUserAgent
        ⟨Method.GET, (GetCoverFromSpotify T url maxQuality).1⟩ with
    | error e =>
      exact ⟨_, [⟨Method.GET, (GetCoverFromSpotify T url maxQuality).1⟩],
        by simp [sentRequests_append, sentRequests], h1, h2, rfl, hnil, by simp, by simp⟩
    | ok resp =>
      refine ⟨_, [⟨Method.GET, (GetCoverFromSpotify T url maxQuality).1⟩],
        ?_, h1, h2, rfl, hnil, by simp, by simp⟩
      simp only []
      by_cases hs : resp.StatusCode = 200
      · simp only [hs, ne_eq, not_true_eq_false, if_false, ioReadAll]
        cases resp.body.err <;> simp [sentRequests_append, sentRequests]
      · simp [hs, sentRequests_append, sentRequests]

/-- C8 at maximum quality on a transport that answers 200: one `HEAD`, then the `GET`,
both for the URL with the code of the maximum resolution. -/
theorem downloadCoverToMemory_requests_witness :
    "https://i.scdn.co/image/ab67616d00001e02abc".toList ≠ [] ∧
    (∃ probes gets : List Request,
      sentRequests (downloadCoverToMemory (constTransport 200 [])
        "https://i.scdn.co/image/ab67616d00001e02abc".toList true).2 = probes ++ gets ∧
      probes.length ≤ 1 ∧
      (∀ r ∈ probes, r.method = Method.HEAD) ∧
      probes = sentRequests (GetCoverFromSpotify (constTransport 200 [])
        "https://i.scdn.co/image/ab67616d00001e02abc".toList true).2 ∧
      ((true = false ∨ ¬ spotifySize640 <:+:
          convertSmallToMedium "https://i.scdn.co/image/ab67616d00001e02abc".toList) →
        probes = []) ∧
      gets.length ≤ 1 ∧
      (∀ r ∈ gets, r = ⟨Method.GET, (GetCoverFromSpotify (constTransport 200 [])
        "https://i.scdn.co/image/ab67616d00001e02abc".toList true).1⟩)) ∧
    sentRequests (downloadCoverToMemory (constTransport 200 [])
        "https://i.scdn.co/image/ab67616d00001e02abc".toList true).2
      = [⟨Method.HEAD, "https://i.scdn.co/image/ab67616d000082c1abc".toList⟩,
         ⟨Method.GET, "https://i.scdn.co/image/ab67616d000082c1abc".toList⟩] :=
  ⟨by decide,
   downloadCoverToMemory_requests (constTransport 200 [])
     "https://i.scdn.co/image/ab67616d00001e02abc".toList true (by decide),
   by decide⟩

/-- C9: a URL that contains none of the three codes passes unchanged through every
rewrite, whatever the transport is: `convertSmallToMedium`, `upgradeToMaxQuality` and
`GetCoverFromSpotify` with either flag return it as it is, and the latter two cause no
event, so no probe is sent. -/
theorem rewrite_passthrough (T : Transport) (url : Str)
    (h300 : ¬ spotifySize300 <:+: url) (h640 : ¬ spotifySize640 <:+: url)
    (_hMax : ¬ spotifySizeMax <:+: url) :
    convertSmallToMedium url = url ∧
    upgradeToMaxQuality T url = (url, []) ∧
    (∀ flag : Bool, GetCoverFromSpotify T url flag = (url, [])) := by
  have hconv := convertSmallToMedium_of_absent url h300
  have hup := upgradeToMaxQuality_of_absent T url h640
  refine ⟨hconv, hup, ?_⟩
  intro flag
  unfold GetCoverFromSpotify
  by_cases hu : url = []
  · simp [hu]
  · rw [if_neg hu, hconv]
    cases flag
    · rfl
    · exact hup

/-- C9 at a URL without a code, on a transport that would answer 200. -/
theorem rewrite_passthrough_witness :
    (¬ spotifySize300 <:+: "https://example.com/cover.jpg".toList ∧
      ¬ spotifySize640 <:+: "https://example.com/cover.jpg".toList ∧
      ¬ spotifySizeMax <:+: "https://example.com/cover.jpg".toList) ∧
    (convertSmallToMedium "https://example.com/cover.jpg".toList
        = "https://example.com/cover.jpg".toList ∧
      upgradeToMaxQuality (constTransport 200 []) "https://example.com/cover.jpg".toList
        = ("https://example.com/cover.jpg".toList, []) ∧
      (∀ flag : Bool,
        GetCoverFromSpotify (constTransport 200 []) "https://example.com/cover.jpg".toList
          flag = ("https://example.com/cover.jpg".toList, []))) :=
  ⟨⟨by decide, by decide, by decide⟩,
   rewrite_passthrough (constTransport 200 []) "https://example.com/cover.jpg".toList
     (by decide) (by decide) (by decide)⟩

/-- C10: if the small code occurs at most once in a URL, the result of
`convertSmallToMedium` contains no small code, and `convertSmallToMedium` applied to
that result returns it unchanged; for the URL made of two small codes, where the code
occurs twice, the second application changes the result of the first. -/
theorem convertSmallToMedium_idempotent :
    (∀ url : Str,
      (∀ a b a' b' : Str, url = a ++ spotifySize300 ++ b →
        url = a' ++ spotifySize300 ++ b' → a = a') →
      ¬ spotifySize300 <:+: convertSmallToMedium url ∧
      convertSmallToMedium (convertSmallToMedium url) = convertSmallToMedium url) ∧
    (occurrences spotifySize300 (spotifySize300 ++ spotifySize300) = [0, 16] ∧
      convertSmallToMedium (spotifySize300 ++ spotifySize300)
        = spotifySize640 ++ spotifySize300 ∧
      convertSmallToMedium (convertSmallToMedium (spotifySize300 ++ spotifySize300))
        = spotifySize640 ++ spotifySize640 ∧
      convertSmallToMedium (convertSmallToMedium (spotifySize300 ++ spotifySize300))
        ≠ convertSmallToMedium (spotifySize300 ++ spotifySize300)) := by
  refine ⟨?_, by decide, by decide, by decide, by decide⟩
  intro url H
  have hno := convertSmallToMedium_not_infix url H
  exact ⟨hno, convertSmallToMedium_of_absent _ hno⟩

/-- C10 at the URL of the specification's scenario, where the small code occurs once. -/
theorem convertSmallToMedium_idempotent_witness :
    (∀ a b a' b' : Str,
      "https://i.scdn.co/image/ab67616d00001e02abc".toList = a ++ spotifySize300 ++ b →
      "https://i.scdn.co/image/ab67616d00001e02abc".toList = a' ++ spotifySize300 ++ b' →
      a = a') ∧
    ¬ spotifySize300 <:+:
      convertSmallToMedium "https://i.scdn.co/image/ab67616d00001e02abc".toList ∧
    convertSmallToMedium
        (convertSmallToMedium "https://i.scdn.co/image/ab67616d00001e02abc".toList)
      = convertSmallToMedium "https://i.scdn.co/image/ab67616d00001e02abc".toList :=
  ⟨at_most_once_of_occurrences _ _ (by decide),
   convertSmallToMedium_idempotent.1 _ (at_most_once_of_occurrences _ _ (by decide))⟩

end Cover
